import Mathlib

/-!
Verification of the loki-master-control core against its specification.

The development shallowly embeds the two core pieces of the repository:

* the privileged request broker (src/daemon/src/main.rs): the `Request` and
  `Response` wire types, `process_request` and `handle_client`;
* the thermal-curve fan controller (src/ui/src/gui.rs): `FanPoint`, the two
  predefined curves, `eval_curve`, `read_temp`, the fan-loop tick body, the
  Hands-off toggle handler, and the retry loop inside `daemon_send`.

Rust f32 arithmetic is embedded over the rationals (exact arithmetic); the
operating system and the serde parser are abstracted as explicit parameters
(an `OsWorld` record, a sensor-file map, a parse function), so every
definition is executable and every effect the code performs is returned as
data and can be reasoned about.
-/

namespace Loki

/-- A calibration point of a fan curve (struct FanPoint, src/ui/src/gui.rs).
Temperatures and percentages are f32 in the source; they are embedded as
rationals. -/
structure FanPoint where
  temp : ℚ
  percent : ℚ
deriving DecidableEq, Repr

/-- The predefined quiet curve (static QUIET_CURVE, src/ui/src/gui.rs). -/
def QUIET_CURVE : List FanPoint :=
  [⟨40, 0⟩, ⟨50, 20⟩, ⟨60, 40⟩, ⟨70, 70⟩, ⟨80, 100⟩]

/-- The predefined aggressive curve (static AGGRESSIVE_CURVE,
src/ui/src/gui.rs). -/
def AGGRESSIVE_CURVE : List FanPoint :=
  [⟨30, 20⟩, ⟨40, 40⟩, ⟨50, 60⟩, ⟨60, 80⟩, ⟨70, 100⟩]

/-- The for-loop of eval_curve over the adjacent pairs of the curve: `p` is
point i, the head of the remaining list is point i+1.  When the loop body
matches (`temp <= curve[i+1].temp`) it returns the linear interpolation;
when the loop runs out, the source returns the last point, which is `p`
here. -/
def evalSegments : FanPoint → List FanPoint → ℚ → ℚ
  | p, [], _ => p.percent
  | p, q :: rest, temp =>
    if temp ≤ q.temp then
      p.percent + (temp - p.temp) / (q.temp - p.temp) * (q.percent - p.percent)
    else evalSegments q rest temp

/-- fn eval_curve (src/ui/src/gui.rs lines 292-305).  The source takes a
reference to a five-point array, so the empty case is unreachable; it is
mapped to 0 here. -/
def eval_curve : List FanPoint → ℚ → ℚ
  | [], _ => 0
  | p :: rest, temp =>
    if temp ≤ p.temp then p.percent else evalSegments p rest temp

/-- Instrumented companion of `evalSegments` that fails instead of consulting
an interpolation whose divisor `curve[i+1].temp - curve[i].temp` is not
positive (in f32 such a division yields an infinity or a NaN). -/
def evalSegmentsChecked : FanPoint → List FanPoint → ℚ → Option ℚ
  | p, [], _ => some p.percent
  | p, q :: rest, temp =>
    if temp ≤ q.temp then
      if 0 < q.temp - p.temp then
        some (p.percent + (temp - p.temp) / (q.temp - p.temp) * (q.percent - p.percent))
      else none
    else evalSegmentsChecked q rest temp

/-- Instrumented companion of `eval_curve`: fails on the out-of-bounds index
of an empty curve and on any non-positive interpolation divisor. -/
def eval_curve_checked : List FanPoint → ℚ → Option ℚ
  | [], _ => none
  | p :: rest, temp =>
    if temp ≤ p.temp then some p.percent else evalSegmentsChecked p rest temp

/-- The last point of the nonempty curve `p :: rest` (what
`curve[curve.len() - 1]` denotes in the source). -/
def lastPoint : FanPoint → List FanPoint → FanPoint
  | p, [] => p
  | _, q :: rest => lastPoint q rest

/-- A curve has strictly increasing temperatures (the well-formedness
condition of the data model). -/
def StrictIncr (c : List FanPoint) : Prop :=
  c.Pairwise (fun a b => a.temp < b.temp)

instance (c : List FanPoint) : Decidable (StrictIncr c) :=
  inferInstanceAs (Decidable (c.Pairwise _))

/-- f32::round of Rust: round half away from zero, exact over ℚ. -/
def rustRound (x : ℚ) : ℤ :=
  if 0 ≤ x then ⌊x + 1 / 2⌋ else -⌊-x + 1 / 2⌋

/-- The Rust float-to-u8 `as` cast: saturate into [0, 255] (the argument is
already integral here because the source rounds first; the NaN case cannot
arise over ℚ). -/
def f32_as_u8 (x : ℤ) : ℕ :=
  (min 255 (max 0 x)).toNat

/-- The duty-byte conversion of the fan loop (src/ui/src/gui.rs line 628):
`((pct / 100.0) * 255.0).round() as u8`. -/
def duty_of_percent (pct : ℚ) : ℕ :=
  f32_as_u8 (rustRound (pct / 100 * 255))

/-- The for-loop of read_temp over sensor indices: first readable and
parseable file wins, its value scaled by 1000. -/
def read_temp_go (raw : ℕ → Option ℚ) : List ℕ → Option ℚ
  | [] => none
  | idx :: rest =>
    match raw idx with
    | some v => some (v / 1000)
    | none => read_temp_go raw rest

/-- fn read_temp (src/ui/src/gui.rs lines 280-290): try temp1_input through
temp5_input in order; the first file that reads and parses as a number
yields that number divided by 1000.  The sensor filesystem is abstracted as
`raw`, mapping a sensor index to the parsed numeric contents of its file
(`none` when the file cannot be read or does not parse). -/
def read_temp (raw : ℕ → Option ℚ) : Option ℚ :=
  read_temp_go raw [1, 2, 3, 4, 5]

/-- The body of one iteration of the fan loop thread (src/ui/src/gui.rs
lines 623-634), returning the sysfs writes it issues as (path, value)
pairs, in order.  `state` is the profile state read under the lock: `none`
is Hands-off or Manual, `some points` is Curve. -/
def tick (base : String) (state : Option (List FanPoint)) (raw : ℕ → Option ℚ) :
    List (String × String) :=
  match state with
  | none => []
  | some points =>
    match read_temp raw with
    | none => []
    | some temp =>
      let pct := eval_curve points temp
      let pwm := duty_of_percent pct
      [(base ++ "/pwm1_enable", "1"), (base ++ "/pwm1", toString pwm)]

/-- The Hands-off (Auto) toggle handler (src/ui/src/gui.rs lines 640-646):
it stores `none` into the shared profile state and itself writes "0" to the
pwm1_enable file.  Returned as (new state, sysfs writes). -/
def auto_toggle (base : String) :
    Option (List FanPoint) × List (String × String) :=
  (none, [(base ++ "/pwm1_enable", "0")])

/-- One run of the retry loop inside daemon_send (src/ui/src/gui.rs lines
943-959) over the list of connect outcomes for attempts 0, 1, 2: returns
(number of connect attempts made, number of message writes made).  On a
successful connect the message is written once and the function returns;
on a failed connect the loop sleeps and tries again. -/
def daemon_send_loop : List Bool → ℕ × ℕ
  | [] => (0, 0)
  | ok :: rest =>
    if ok then (1, 1)
    else
      let r := daemon_send_loop rest
      (r.1 + 1, r.2)

/-- daemon_send attempts at most three connects: its trace is the loop run
on the first three connect outcomes. -/
def daemon_send_trace (connectOk : ℕ → Bool) : ℕ × ℕ :=
  daemon_send_loop ((List.range 3).map connectOk)

/-- enum Request (src/daemon/src/main.rs lines 9-14). -/
inductive Request where
  | Write (path : String) (value : String)
  | Run (program : String) (args : List String)
deriving DecidableEq, Repr

/-- struct Response (src/daemon/src/main.rs lines 16-20). -/
structure Response where
  success : Bool
  error : Option String
deriving DecidableEq, Repr

/-- A Unix exit status of a process that terminated normally, carrying its
exit code. -/
structure ExitStatus where
  code : ℕ
deriving DecidableEq, Repr

/-- ExitStatus::success of the Rust standard library: the code is zero. -/
def ExitStatus.success (s : ExitStatus) : Bool :=
  s.code == 0

/-- The Display rendering of std::process::ExitStatus for a normally exited
process: the text "exit status: " followed by the code.  This is what the
format argument `status` expands to on src/daemon/src/main.rs line 80. -/
def ExitStatus.display (s : ExitStatus) : String :=
  "exit status: " ++ toString s.code

/-- The operating system as seen by the broker: the outcome of overwriting a
file (tokio::fs::write) and of spawning a program and waiting for it
(Command::status).  The error strings are the OS error texts produced by
to_string on the io::Error. -/
structure OsWorld where
  writeFile : String → String → Except String Unit
  spawnWait : String → List String → Except String ExitStatus

/-- fn process_request (src/daemon/src/main.rs lines 60-88). -/
def process_request (os : OsWorld) : Request → Response
  | .Write path value =>
    match os.writeFile path value with
    | .ok _ => ⟨true, none⟩
    | .error e => ⟨false, some e⟩
  | .Run program args =>
    match os.spawnWait program args with
    | .ok status =>
      if status.success then ⟨true, none⟩
      else ⟨false, some ("exit status: " ++ status.display)⟩
    | .error e => ⟨false, some e⟩

/-- The privileged effects a request executes when processed, in order. -/
inductive Effect where
  | fileWrite (path : String) (value : String)
  | spawn (program : String) (args : List String)
deriving DecidableEq, Repr

/-- The effect list of each request: a Write overwrites one file, a Run
spawns one process. -/
def requestEffects : Request → List Effect
  | .Write path value => [.fileWrite path value]
  | .Run program args => [.spawn program args]

/-- fn handle_client (src/daemon/src/main.rs lines 39-58) on a received
line: parse it (serde_json is abstracted as `parse`); on failure answer
with a parse-error response and stop without executing anything; on
success execute the request and answer with its response.  The result is
the single response written to the connection together with the privileged
effects executed. -/
def handle_client (parse : String → Except String Request) (os : OsWorld)
    (line : String) : Response × List Effect :=
  match parse line with
  | .error e => (⟨false, some ("parse error: " ++ e)⟩, [])
  | .ok req => (process_request os req, requestEffects req)

/-- A sample OS in which every file write succeeds and every spawned
program exits with code 1. -/
def osExit1 : OsWorld where
  writeFile := fun _ _ => .ok ()
  spawnWait := fun _ _ => .ok ⟨1⟩

/-- A sample parse function that rejects every line with the given
message. -/
def parseNone (msg : String) : String → Except String Request :=
  fun _ => .error msg

/-! ### Helper lemmas about the sensor scan -/

theorem read_temp_first_aux (raw : ℕ → Option ℚ) (i : ℕ) (v : ℚ)
    (h1 : 1 ≤ i) (h5 : i ≤ 5)
    (hnone : ∀ j, 1 ≤ j → j < i → raw j = none)
    (hv : raw i = some v) :
    read_temp raw = some (v / 1000) := by
  interval_cases i
  · simp [read_temp, read_temp_go, hv]
  · have n1 := hnone 1 (by norm_num) (by norm_num)
    simp [read_temp, read_temp_go, n1, hv]
  · have n1 := hnone 1 (by norm_num) (by norm_num)
    have n2 := hnone 2 (by norm_num) (by norm_num)
    simp [read_temp, read_temp_go, n1, n2, hv]
  · have n1 := hnone 1 (by norm_num) (by norm_num)
    have n2 := hnone 2 (by norm_num) (by norm_num)
    have n3 := hnone 3 (by norm_num) (by norm_num)
    simp [read_temp, read_temp_go, n1, n2, n3, hv]
  · have n1 := hnone 1 (by norm_num) (by norm_num)
    have n2 := hnone 2 (by norm_num) (by norm_num)
    have n3 := hnone 3 (by norm_num) (by norm_num)
    have n4 := hnone 4 (by norm_num) (by norm_num)
    simp [read_temp, read_temp_go, n1, n2, n3, n4, hv]

theorem read_temp_none_aux (raw : ℕ → Option ℚ)
    (h : ∀ i, 1 ≤ i → i ≤ 5 → raw i = none) :
    read_temp raw = none := by
  have n1 := h 1 (by norm_num) (by norm_num)
  have n2 := h 2 (by norm_num) (by norm_num)
  have n3 := h 3 (by norm_num) (by norm_num)
  have n4 := h 4 (by norm_num) (by norm_num)
  have n5 := h 5 (by norm_num) (by norm_num)
  simp [read_temp, read_temp_go, n1, n2, n3, n4, n5]

/-! ### Broker claims -/

/-- Claim C1, counterexample: in an OS where the spawned process exits with
code 1, the broker response carries the error text
"exit status: exit status: 1" and not "exit status: 1" as the claim
states: the source prepends the literal "exit status: " to the standard
rendering of the exit status, which itself already starts with
"exit status: ". -/
theorem c1_counterexample :
    (process_request osExit1 (.Run "false" [])).error ≠ some "exit status: 1" ∧
    (process_request osExit1 (.Run "false" [])).error
      = some "exit status: exit status: 1" := by
  constructor
  · decide
  · decide

/-- Claim C1 (amended): for a Run request the response is success=true with
error=null iff the spawned process exits with code 0; an exit with a
non-zero code c yields success=false with the error string
"exit status: exit status: c" (the doubled prefix comes from prepending
"exit status: " to the standard rendering of the exit status); a spawn
failure yields the OS error text. -/
theorem c1_run_exit_status (os : OsWorld) (program : String) (args : List String) :
    (∀ st, os.spawnWait program args = .ok st →
      (process_request os (.Run program args) = ⟨true, none⟩ ↔ st.code = 0)) ∧
    (∀ st, os.spawnWait program args = .ok st → st.code ≠ 0 →
      process_request os (.Run program args)
        = ⟨false, some ("exit status: exit status: " ++ toString st.code)⟩) ∧
    (∀ e, os.spawnWait program args = .error e →
      process_request os (.Run program args) = ⟨false, some e⟩) := by
  refine ⟨?_, ?_, ?_⟩
  · intro st hst
    constructor
    · intro h
      by_contra hc
      have hf : st.success = false := by
        simp [ExitStatus.success, hc]
      simp [process_request, hst, hf] at h
    · intro h
      have ht : st.success = true := by
        simp [ExitStatus.success, h]
      simp [process_request, hst, ht]
  · intro st hst hc
    have hf : st.success = false := by
      simp [ExitStatus.success, hc]
    have hs : "exit status: " ++ st.display
        = "exit status: exit status: " ++ toString st.code := by
      rw [ExitStatus.display, ← String.append_assoc]
      congr 1
    simp [process_request, hst, hf, hs]
  · intro e he
    simp [process_request, he]

theorem c1_run_exit_status_witness :
    process_request osExit1 (.Run "false" [])
      = ⟨false, some ("exit status: exit status: " ++ toString 1)⟩ :=
  (c1_run_exit_status osExit1 "false" []).2.1 ⟨1⟩ rfl (by decide)

/-- Claim C3: when the received line does not parse as a Request, the broker
answers with the parse-error response and executes no privileged effect at
all: no file write and no process spawn.  handle_client returns right after
writing that single response, which closes the connection. -/
theorem c3_parse_error_no_effects (parse : String → Except String Request)
    (os : OsWorld) (line e : String) (h : parse line = .error e) :
    handle_client parse os line
      = (⟨false, some ("parse error: " ++ e)⟩, []) := by
  simp [handle_client, h]

theorem c3_parse_error_no_effects_witness :
    handle_client (parseNone "expected value") osExit1 "not json"
      = (⟨false, some ("parse error: " ++ "expected value")⟩, []) :=
  c3_parse_error_no_effects (parseNone "expected value") osExit1 "not json"
    "expected value" rfl

/-! ### Fan loop claims -/

/-- Claim C4, counterexample: after the switch to Hands-off, the next tick
of the fan loop performs no write at all; in particular it does not write
the PWM-disable flag, contrary to the claim that the tick writes it. -/
theorem c4_counterexample :
    tick "base" (auto_toggle "base").1 (fun _ => some 50000) = [] ∧
    ("base" ++ "/pwm1_enable", "0")
      ∉ tick "base" (auto_toggle "base").1 (fun _ => some 50000) := by
  constructor
  · rfl
  · simp [tick, auto_toggle]

/-- Claim C4 (amended): switching from Curve(X) to Hands-off stores the
Hands-off state, and the PWM-disable flag is written synchronously by the
switch handler itself; the next tick of the fan loop then skips writing any
duty value and performs no write whatsoever. -/
theorem c4_hands_off_switch (base : String) (raw : ℕ → Option ℚ) :
    (auto_toggle base).1 = none ∧
    (auto_toggle base).2 = [(base ++ "/pwm1_enable", "0")] ∧
    tick base (auto_toggle base).1 raw = [] :=
  ⟨rfl, rfl, rfl⟩

/-- Claim C5: on a tick in Curve mode, the sensor indices are tried in the
fixed order 1..5 and the first successful numeric read wins; if every
sensor read fails the tick performs no write; otherwise the tick writes the
PWM-enable flag and then the duty byte round(percent/100*255) computed from
eval_curve at the temperature read. -/
theorem c5_curve_tick (base : String) (curve : List FanPoint)
    (raw : ℕ → Option ℚ) :
    ((∀ i, 1 ≤ i → i ≤ 5 → raw i = none) → tick base (some curve) raw = []) ∧
    (∀ i v, 1 ≤ i → i ≤ 5 → (∀ j, 1 ≤ j → j < i → raw j = none) →
      raw i = some v → read_temp raw = some (v / 1000)) ∧
    (∀ t, read_temp raw = some t →
      tick base (some curve) raw
        = [(base ++ "/pwm1_enable", "1"),
           (base ++ "/pwm1", toString (duty_of_percent (eval_curve curve t)))]) := by
  refine ⟨?_, ?_, ?_⟩
  · intro h
    simp [tick, read_temp_none_aux raw h]
  · intro i v h1 h5 hnone hv
    exact read_temp_first_aux raw i v h1 h5 hnone hv
  · intro t ht
    simp [tick, ht]

theorem c5_curve_tick_witness :
    tick "hw" (some QUIET_CURVE) (fun _ => none) = [] :=
  (c5_curve_tick "hw" QUIET_CURVE (fun _ => none)).1 (fun _ _ _ => rfl)

/-- Claim C7, counterexample: when the first connect attempt fails and the
second succeeds, daemon_send makes two connect attempts for one single
trigger, so the connect operation is retried, contradicting the claim that
no operation is ever retried. -/
theorem c7_counterexample :
    (daemon_send_trace (fun n => n != 0)).1 = 2 ∧
    (daemon_send_trace (fun n => n != 0)).1 ≠ 1 := by
  constructor
  · decide
  · decide

/-- Claim C7 (amended): the broker executes exactly one privileged
operation per request and never retries it, and daemon_send writes its
request message at most once per trigger; but the socket connect inside
daemon_send is attempted up to three times per trigger (retried after a
connect failure), so not every operation is attempted exactly once. -/
theorem c7_retry_accounting (req : Request) (connectOk : ℕ → Bool) :
    (requestEffects req).length = 1 ∧
    (daemon_send_trace connectOk).2 ≤ 1 ∧
    (daemon_send_trace connectOk).1 ≤ 3 := by
  have hmap : (List.range 3).map connectOk
      = [connectOk 0, connectOk 1, connectOk 2] := rfl
  refine ⟨?_, ?_, ?_⟩
  · cases req <;> simp [requestEffects]
  · rw [daemon_send_trace, hmap]
    cases h0 : connectOk 0 <;> cases h1 : connectOk 1 <;> cases h2 : connectOk 2 <;>
      simp [daemon_send_loop, h0, h1, h2]
  · rw [daemon_send_trace, hmap]
    cases h0 : connectOk 0 <;> cases h1 : connectOk 1 <;> cases h2 : connectOk 2 <;>
      simp [daemon_send_loop, h0, h1, h2]

/-- Claim C10: read_temp scales the raw sensor reading by 1000: whenever
sensor i is the first whose file reads and parses as a number v, read_temp
returns v / 1000 (so a raw reading of 50000 yields temperature 50, see the
witness). -/
theorem c10_read_temp_scaling (raw : ℕ → Option ℚ) (i : ℕ) (v : ℚ)
    (h1 : 1 ≤ i) (h5 : i ≤ 5)
    (hnone : ∀ j, 1 ≤ j → j < i → raw j = none)
    (hv : raw i = some v) :
    read_temp raw = some (v / 1000) :=
  read_temp_first_aux raw i v h1 h5 hnone hv

/-! ### Helper lemmas about the curve evaluator -/

theorem strictIncr_cons (p : FanPoint) (rest : List FanPoint)
    (h : StrictIncr (p :: rest)) :
    (∀ q ∈ rest, p.temp < q.temp) ∧ StrictIncr rest :=
  List.pairwise_cons.mp h

theorem lastPoint_mem (p : FanPoint) (rest : List FanPoint) :
    lastPoint p rest ∈ p :: rest := by
  induction rest generalizing p with
  | nil => simp [lastPoint]
  | cons q rs ih =>
    rw [lastPoint]
    exact List.mem_cons_of_mem p (ih q)

theorem lastPoint_head_le (p : FanPoint) (rest : List FanPoint)
    (h : StrictIncr (p :: rest)) :
    p.temp ≤ (lastPoint p rest).temp := by
  induction rest generalizing p with
  | nil => exact le_refl _
  | cons q rs ih =>
    rw [lastPoint]
    have hpq : p.temp < q.temp :=
      (strictIncr_cons p _ h).1 q (List.mem_cons_self q rs)
    exact le_trans (le_of_lt hpq) (ih q (strictIncr_cons p _ h).2)

theorem lastPoint_head_lt (p q : FanPoint) (rs : List FanPoint)
    (h : StrictIncr (p :: q :: rs)) :
    p.temp < (lastPoint p (q :: rs)).temp := by
  rw [lastPoint]
  exact (strictIncr_cons p _ h).1 _ (lastPoint_mem q rs)

theorem lastPoint_eq_getLast (p : FanPoint) (rest : List FanPoint) :
    lastPoint p rest = (p :: rest).getLast (List.cons_ne_nil p rest) := by
  induction rest generalizing p with
  | nil => rfl
  | cons q rs ih =>
    rw [lastPoint, List.getLast_cons (List.cons_ne_nil q rs)]
    exact ih q

theorem evalSegments_last (rest : List FanPoint) :
    ∀ (p : FanPoint) (t : ℚ), StrictIncr (p :: rest) →
      (lastPoint p rest).temp ≤ t →
      evalSegments p rest t = (lastPoint p rest).percent := by
  induction rest with
  | nil => intro p t _ _; rfl
  | cons q rs ih =>
    intro p t hinc hlast
    have hpq : p.temp < q.temp :=
      (strictIncr_cons p _ hinc).1 q (List.mem_cons_self q rs)
    have htail : StrictIncr (q :: rs) := (strictIncr_cons p _ hinc).2
    rw [lastPoint] at hlast ⊢
    by_cases hle : t ≤ q.temp
    · have hql : q.temp ≤ (lastPoint q rs).temp := lastPoint_head_le q rs htail
      have htq : t = q.temp := le_antisymm hle (le_trans hql hlast)
      cases rs with
      | nil =>
        have hne : q.temp - p.temp ≠ 0 := sub_ne_zero.mpr (ne_of_gt hpq)
        simp only [evalSegments, if_pos hle, lastPoint]
        rw [htq, div_self hne]
        ring
      | cons r rs2 =>
        exfalso
        have hql2 : q.temp < (lastPoint q (r :: rs2)).temp :=
          lastPoint_head_lt q r rs2 htail
        rw [htq] at hlast
        exact absurd (lt_of_lt_of_le hql2 hlast) (lt_irrefl _)
    · simp only [evalSegments, if_neg hle]
      exact ih q t htail hlast

theorem evalSegments_interp (pre : List FanPoint) :
    ∀ (p : FanPoint) (rest : List FanPoint) (a b : FanPoint)
      (suf : List FanPoint) (t : ℚ),
      p :: rest = pre ++ a :: b :: suf → StrictIncr (p :: rest) →
      p.temp < t → a.temp < t → t ≤ b.temp →
      evalSegments p rest t
        = a.percent + (t - a.temp) / (b.temp - a.temp) * (b.percent - a.percent) := by
  induction pre with
  | nil =>
    intro p rest a b suf t heq hinc hpt hat htb
    rw [List.nil_append] at heq
    injection heq with hpa hrest
    subst hpa
    subst hrest
    simp only [evalSegments, if_pos htb]
  | cons x pre2 ih =>
    intro p rest a b suf t heq hinc hpt hat htb
    rw [List.cons_append] at heq
    injection heq with hpx hrest
    cases rest with
    | nil =>
      exfalso
      cases pre2 <;> simp at hrest
    | cons q rs =>
      have htail : StrictIncr (q :: rs) := (strictIncr_cons p _ hinc).2
      have hamem : a ∈ q :: rs := by
        rw [hrest]
        exact List.mem_append_right pre2 (List.mem_cons_self a _)
      have hqa : q.temp ≤ a.temp := by
        rcases List.mem_cons.mp hamem with h | h
        · exact le_of_eq (by rw [h])
        · exact le_of_lt ((strictIncr_cons q _ htail).1 a h)
      have hqt : q.temp < t := lt_of_le_of_lt hqa hat
      simp only [evalSegments, if_neg (not_le.mpr hqt)]
      exact ih q rs a b suf t hrest htail hqt hat htb

theorem eval_curve_clamp_low (p : FanPoint) (rest : List FanPoint) (t : ℚ)
    (h : t ≤ p.temp) : eval_curve (p :: rest) t = p.percent := by
  simp only [eval_curve, if_pos h]

theorem eval_curve_last (p : FanPoint) (rest : List FanPoint) (t : ℚ)
    (hinc : StrictIncr (p :: rest)) (h : (lastPoint p rest).temp ≤ t) :
    eval_curve (p :: rest) t = (lastPoint p rest).percent := by
  by_cases hle : t ≤ p.temp
  · rw [eval_curve_clamp_low p rest t hle]
    cases rest with
    | nil => rfl
    | cons q rs =>
      exfalso
      have h1 : p.temp < (lastPoint p (q :: rs)).temp :=
        lastPoint_head_lt p q rs hinc
      exact absurd (lt_of_lt_of_le h1 (le_trans h hle)) (lt_irrefl _)
  · simp only [eval_curve, if_neg hle]
    exact evalSegments_last rest p t hinc h

theorem eval_curve_interp (c pre : List FanPoint) (a b : FanPoint)
    (suf : List FanPoint) (t : ℚ) (heq : c = pre ++ a :: b :: suf)
    (hinc : StrictIncr c) (hat : a.temp < t) (htb : t ≤ b.temp) :
    eval_curve c t
      = a.percent + (t - a.temp) / (b.temp - a.temp) * (b.percent - a.percent) := by
  cases c with
  | nil => cases pre <;> simp at heq
  | cons p rest =>
    have hamem : a ∈ p :: rest := by
      rw [heq]
      exact List.mem_append_right pre (List.mem_cons_self a _)
    have hpa : p.temp ≤ a.temp := by
      rcases List.mem_cons.mp hamem with h | h
      · exact le_of_eq (by rw [h])
      · exact le_of_lt ((strictIncr_cons p _ hinc).1 a h)
    have hpt : p.temp < t := lt_of_le_of_lt hpa hat
    simp only [eval_curve, if_neg (not_le.mpr hpt)]
    exact evalSegments_interp pre p rest a b suf t heq hinc hpt hat htb

/-! ### Curve evaluator claims -/

/-- Claim C2: for a curve with at least two points and strictly increasing
temperatures, eval_curve returns the first percent when the temperature is
at or below the first point, the last percent when it is at or above the
last point, and otherwise the linear interpolation over the adjacent pair
(a, b) with a.temp < t ≤ b.temp (the decomposition c = pre ++ a :: b :: suf
names that unique pair). -/
theorem c2_eval_curve_cases (c : List FanPoint) (hlen : 2 ≤ c.length)
    (hinc : StrictIncr c) (t : ℚ) :
    (∀ p rest, c = p :: rest → t ≤ p.temp → eval_curve c t = p.percent) ∧
    (∀ hne : c ≠ [], (c.getLast hne).temp ≤ t →
      eval_curve c t = (c.getLast hne).percent) ∧
    (∀ pre a b suf, c = pre ++ a :: b :: suf → a.temp < t → t ≤ b.temp →
      eval_curve c t
        = a.percent + (t - a.temp) / (b.temp - a.temp) * (b.percent - a.percent)) := by
  refine ⟨?_, ?_, ?_⟩
  · intro p rest heq hle
    subst heq
    exact eval_curve_clamp_low p rest t hle
  · intro hne hlast
    cases c with
    | nil => exact absurd rfl hne
    | cons p rest =>
      have hgl : (p :: rest).getLast hne = lastPoint p rest :=
        (lastPoint_eq_getLast p rest).symm
      rw [hgl] at hlast ⊢
      exact eval_curve_last p rest t hinc hlast
  · intro pre a b suf heq hat htb
    exact eval_curve_interp c pre a b suf t heq hinc hat htb

theorem c2_eval_curve_cases_witness :
    eval_curve QUIET_CURVE 30 = (FanPoint.mk 40 0).percent :=
  (c2_eval_curve_cases QUIET_CURVE (by decide) (by decide) 30).1
    ⟨40, 0⟩ [⟨50, 20⟩, ⟨60, 40⟩, ⟨70, 70⟩, ⟨80, 100⟩] rfl (by decide)

theorem evalSegmentsChecked_eq (rest : List FanPoint) :
    ∀ (p : FanPoint) (t : ℚ), StrictIncr (p :: rest) →
      evalSegmentsChecked p rest t = some (evalSegments p rest t) := by
  induction rest with
  | nil => intro p t _; rfl
  | cons q rs ih =>
    intro p t hinc
    have hpq : p.temp < q.temp :=
      (strictIncr_cons p _ hinc).1 q (List.mem_cons_self q rs)
    by_cases hle : t ≤ q.temp
    · simp only [evalSegmentsChecked, evalSegments, if_pos hle,
        if_pos (sub_pos.mpr hpq)]
    · simp only [evalSegmentsChecked, evalSegments, if_neg hle]
      exact ih q t (strictIncr_cons p _ hinc).2

/-- Claim C6: for a curve with at least two points and strictly increasing
temperatures, eval_curve is total for every temperature: the instrumented
evaluator, which fails on the out-of-bounds index of an empty curve and on
any interpolation whose divisor is not positive, succeeds everywhere and
agrees with eval_curve, so every index is in bounds and every divisor is
positive.  Determinism and freedom from side effects hold by construction:
the embedded evaluator is a pure function of its arguments. -/
theorem c6_eval_curve_total (c : List FanPoint) (hlen : 2 ≤ c.length)
    (hinc : StrictIncr c) (t : ℚ) :
    eval_curve_checked c t = some (eval_curve c t) := by
  cases c with
  | nil => simp at hlen
  | cons p rest =>
    by_cases hle : t ≤ p.temp
    · simp only [eval_curve_checked, eval_curve, if_pos hle]
    · simp only [eval_curve_checked, eval_curve, if_neg hle]
      exact evalSegmentsChecked_eq rest p t hinc

theorem c6_eval_curve_total_witness :
    eval_curve_checked QUIET_CURVE 55 = some (eval_curve QUIET_CURVE 55) :=
  c6_eval_curve_total QUIET_CURVE (by decide) (by decide) 55

/-- Claim C8: with strictly increasing temperatures and non-decreasing
percents, eval_curve is monotone in the temperature between two consecutive
points, and at the midpoint of an adjacent pair it equals the exact average
of the two percents. -/
theorem c8_monotone_midpoint (c : List FanPoint) (hinc : StrictIncr c)
    (hmono : c.Pairwise fun x y => x.percent ≤ y.percent) :
    (∀ pre a b suf s t, c = pre ++ a :: b :: suf →
      a.temp < s → s ≤ t → t ≤ b.temp →
      eval_curve c s ≤ eval_curve c t) ∧
    (∀ pre a b suf, c = pre ++ a :: b :: suf →
      eval_curve c ((a.temp + b.temp) / 2) = (a.percent + b.percent) / 2) := by
  constructor
  · intro pre a b suf s t heq has hst htb
    have hat : a.temp < t := lt_of_lt_of_le has hst
    have hsb : s ≤ b.temp := le_trans hst htb
    rw [eval_curve_interp c pre a b suf s heq hinc has hsb,
      eval_curve_interp c pre a b suf t heq hinc hat htb]
    have hpairT : (a :: b :: suf).Pairwise (fun x y => x.temp < y.temp) :=
      (List.pairwise_append.mp (heq ▸ hinc)).2.1
    have hab : a.temp < b.temp :=
      (List.pairwise_cons.mp hpairT).1 b (List.mem_cons_self b suf)
    have hpairP : (a :: b :: suf).Pairwise (fun x y => x.percent ≤ y.percent) :=
      (List.pairwise_append.mp (heq ▸ hmono)).2.1
    have hD : a.percent ≤ b.percent :=
      (List.pairwise_cons.mp hpairP).1 b (List.mem_cons_self b suf)
    have hden : 0 < b.temp - a.temp := sub_pos.mpr hab
    apply add_le_add_left
    apply mul_le_mul_of_nonneg_right _ (sub_nonneg.mpr hD)
    exact (div_le_div_iff_of_pos_right hden).mpr (by linarith)
  · intro pre a b suf heq
    have hpairT : (a :: b :: suf).Pairwise (fun x y => x.temp < y.temp) :=
      (List.pairwise_append.mp (heq ▸ hinc)).2.1
    have hab : a.temp < b.temp :=
      (List.pairwise_cons.mp hpairT).1 b (List.mem_cons_self b suf)
    have h1 : a.temp < (a.temp + b.temp) / 2 := by linarith
    have h2 : (a.temp + b.temp) / 2 ≤ b.temp := by linarith
    rw [eval_curve_interp c pre a b suf _ heq hinc h1 h2]
    have hne : b.temp - a.temp ≠ 0 := sub_ne_zero.mpr (ne_of_gt hab)
    field_simp
    ring

theorem c8_monotone_midpoint_witness :
    eval_curve QUIET_CURVE 41 ≤ eval_curve QUIET_CURVE 49 :=
  (c8_monotone_midpoint QUIET_CURVE (by decide) (by decide)).1
    [] ⟨40, 0⟩ ⟨50, 20⟩ [⟨60, 40⟩, ⟨70, 70⟩, ⟨80, 100⟩] 41 49 rfl
    (by decide) (by decide) (by decide)

theorem evalSegments_range (rest : List FanPoint) :
    ∀ (p : FanPoint) (t : ℚ), StrictIncr (p :: rest) →
      (∀ x ∈ p :: rest, 0 ≤ x.percent ∧ x.percent ≤ 100) → p.temp < t →
      0 ≤ evalSegments p rest t ∧ evalSegments p rest t ≤ 100 := by
  induction rest with
  | nil =>
    intro p t _ hb _
    exact hb p (List.mem_cons_self p [])
  | cons q rs ih =>
    intro p t hinc hb hpt
    have hpq : p.temp < q.temp :=
      (strictIncr_cons p _ hinc).1 q (List.mem_cons_self q rs)
    by_cases hle : t ≤ q.temp
    · simp only [evalSegments, if_pos hle]
      have hd : 0 < q.temp - p.temp := sub_pos.mpr hpq
      have hr0 : 0 ≤ (t - p.temp) / (q.temp - p.temp) :=
        div_nonneg (by linarith) (le_of_lt hd)
      have hr1 : (t - p.temp) / (q.temp - p.temp) ≤ 1 :=
        (div_le_one hd).mpr (by linarith)
      obtain ⟨hp0, hp1⟩ := hb p (List.mem_cons_self p _)
      obtain ⟨hq0, hq1⟩ := hb q (List.mem_cons_of_mem p (List.mem_cons_self q _))
      constructor
      · nlinarith [mul_nonneg hr0 hq0,
          mul_nonneg (by linarith : (0:ℚ) ≤ 1 - (t - p.temp) / (q.temp - p.temp)) hp0]
      · nlinarith [mul_nonneg hr0 (by linarith : (0:ℚ) ≤ 100 - q.percent),
          mul_nonneg (by linarith : (0:ℚ) ≤ 1 - (t - p.temp) / (q.temp - p.temp))
            (by linarith : (0:ℚ) ≤ 100 - p.percent)]
    · simp only [evalSegments, if_neg hle]
      exact ih q t (strictIncr_cons p _ hinc).2
        (fun x hx => hb x (List.mem_cons_of_mem p hx)) (lt_of_not_le hle)

theorem eval_curve_range (c : List FanPoint) (hinc : StrictIncr c)
    (hb : ∀ x ∈ c, 0 ≤ x.percent ∧ x.percent ≤ 100) (t : ℚ) :
    0 ≤ eval_curve c t ∧ eval_curve c t ≤ 100 := by
  cases c with
  | nil =>
    constructor <;> norm_num [eval_curve]
  | cons p rest =>
    by_cases hle : t ≤ p.temp
    · simp only [eval_curve, if_pos hle]
      exact hb p (List.mem_cons_self p rest)
    · simp only [eval_curve, if_neg hle]
      exact evalSegments_range rest p t hinc hb (lt_of_not_le hle)

theorem rustRound_bounds (x : ℚ) (h0 : 0 ≤ x) (h255 : x ≤ 255) :
    0 ≤ rustRound x ∧ rustRound x ≤ 255 := by
  rw [rustRound, if_pos h0]
  constructor
  · exact Int.floor_nonneg.mpr (by linarith)
  · have hlt : ⌊x + 1 / 2⌋ < 256 := Int.floor_lt.mpr (by push_cast; linarith)
    omega

theorem percent_scale_bounds (pct : ℚ) (h0 : 0 ≤ pct) (h100 : pct ≤ 100) :
    0 ≤ pct / 100 * 255 ∧ pct / 100 * 255 ≤ 255 := by
  constructor
  · exact mul_nonneg (div_nonneg h0 (by norm_num)) (by norm_num)
  · have h1 : pct / 100 ≤ 1 := (div_le_one (by norm_num)).mpr h100
    have h2 := mul_le_mul_of_nonneg_right h1 (show (0:ℚ) ≤ 255 by norm_num)
    linarith

theorem f32_as_u8_eq (z : ℤ) (h0 : 0 ≤ z) (h255 : z ≤ 255) :
    (f32_as_u8 z : ℤ) = z := by
  rw [f32_as_u8, max_eq_right h0, min_eq_right h255, Int.toNat_of_nonneg h0]

/-- Claim C9: the duty conversion maps percent 0 to duty 0 and percent 100
to duty 255 exactly; and for every well-formed curve whose percents lie in
[0, 100] — as the percents of both predefined curves do — the rounded duty
computed from the result of eval_curve lies in [0, 255], so the conversion
to a byte never truncates: the saturating u8 cast is the identity on the
rounded value. -/
theorem c9_duty_conversion :
    duty_of_percent 0 = 0 ∧ duty_of_percent 100 = 255 ∧
    (∀ c t, StrictIncr c → (∀ x ∈ c, 0 ≤ x.percent ∧ x.percent ≤ 100) →
      0 ≤ rustRound (eval_curve c t / 100 * 255) ∧
      rustRound (eval_curve c t / 100 * 255) ≤ 255 ∧
      (duty_of_percent (eval_curve c t) : ℤ)
        = rustRound (eval_curve c t / 100 * 255)) ∧
    (∀ x ∈ QUIET_CURVE, 0 ≤ x.percent ∧ x.percent ≤ 100) ∧
    (∀ x ∈ AGGRESSIVE_CURVE, 0 ≤ x.percent ∧ x.percent ≤ 100) := by
  refine ⟨?_, ?_, ?_, ?_, ?_⟩
  · norm_num [duty_of_percent, f32_as_u8, rustRound]
  · norm_num [duty_of_percent, f32_as_u8, rustRound]
    rfl
  · intro c t hinc hb
    obtain ⟨h0, h100⟩ := eval_curve_range c hinc hb t
    obtain ⟨hs0, hs255⟩ := percent_scale_bounds _ h0 h100
    obtain ⟨hr0, hr255⟩ := rustRound_bounds _ hs0 hs255
    exact ⟨hr0, hr255, f32_as_u8_eq _ hr0 hr255⟩
  · decide
  · decide

theorem c9_duty_conversion_witness :
    0 ≤ rustRound (eval_curve QUIET_CURVE 55 / 100 * 255) ∧
    rustRound (eval_curve QUIET_CURVE 55 / 100 * 255) ≤ 255 ∧
    (duty_of_percent (eval_curve QUIET_CURVE 55) : ℤ)
      = rustRound (eval_curve QUIET_CURVE 55 / 100 * 255) :=
  c9_duty_conversion.2.2.1 QUIET_CURVE 55 (by decide) (by decide)

theorem c10_read_temp_scaling_witness :
    read_temp (fun j => if j = 1 then some 50000 else none)
      = some (50000 / 1000) :=
  c10_read_temp_scaling (fun j => if j = 1 then some 50000 else none) 1 50000
    (by decide) (by decide) (fun j hj hlt => absurd hlt (Nat.not_lt.mpr hj)) rfl

end Loki
